import Mathlib

/-!
# Verification of the accumulator script

A shallow embedding of `src/scripts/py-scripts/main.py`, which defines the
recursive function `add_num` (the spec's "Accumulator"):

```python
def add_num(start: int, add: int) -> str:
    if (start) >= 4000:
        return f"The sum is {start + add}"
    return add_num(start + add, add)

add_num(2, 1)
```

Python integers are unbounded, so `start` and `add` are `Int`.  Python
recursion has no intrinsic termination guarantee, so `add_num` is embedded
fuel-indexed: `fuel` bounds the number of recursive calls, `none` means the
computation did not terminate within that bound.  The terminal branch
consumes no fuel, so `addNum 0 start add = some _` iff the very first call
takes the terminal branch (no recursive step at all).
-/

namespace Accumulator

/-- The f-string `f"The sum is {total}"` at line 20 of the source. -/
def resultString (total : Int) : String :=
  "The sum is " ++ toString total

/-- Fuel-indexed embedding of `add_num` (lines 9-21).  `fuel` bounds the
number of recursive calls taken; `none` means the bound was exhausted while
still below the threshold. -/
def addNum (fuel : Nat) (start add : Int) : Option String :=
  if 4000 ≤ start then
    some (resultString (start + add))
  else
    match fuel with
    | 0 => none
    | fuel + 1 => addNum fuel (start + add) add

/-- The single top-level invocation `add_num(2, 1)` at line 24 of the
source, at a given fuel bound. -/
def mainInvocation (fuel : Nat) : Option String :=
  addNum fuel 2 1

/-- The spec's §4.1 contract formula, written from the spec's words (not
from the code, which is to be compared against it): `T` is the smallest
value of the form `start + k*add` (`k ≥ 0`) that is `≥ 4000`. -/
def specLeastTotal (start add T : Int) : Prop :=
  (∃ k : Nat, T = start + (k : Int) * add) ∧ 4000 ≤ T ∧
    ∀ T' : Int, (∃ k : Nat, T' = start + (k : Int) * add) → 4000 ≤ T' → T ≤ T'

/-- The loop of the spec's iterative reformulation (§9): `total := start;`
`while total < 4000 do total := total + add`, fuel-indexed.  Returns the
final `total` when the loop exits within `fuel` iterations. -/
def loopTotal (fuel : Nat) (total add : Int) : Option Int :=
  if 4000 ≤ total then
    some total
  else
    match fuel with
    | 0 => none
    | fuel + 1 => loopTotal fuel (total + add) add

/-- The spec's iterative reformulation of the Accumulator, written from the
spec's words: run the loop, then report `"The sum is {total + add}"`. -/
def addNumIter (fuel : Nat) (start add : Int) : Option String :=
  (loopTotal fuel start add).map (fun t => resultString (t + add))

/-- The spec's §4.4 state machine: `Accumulating` carries the current
`start` (the RunningTotal) and the fixed `add`; `Done` carries the Result
string and is terminal. -/
inductive AccState where
  | accumulating : Int → Int → AccState
  | done : String → AccState
  deriving DecidableEq

/-- One transition of the state machine, read off the body of `add_num`:
below the threshold, `Accumulating start add → Accumulating (start+add) add`;
at or above it, `Accumulating → Done` with the Result; `Done` is absorbing. -/
def stepState : AccState → AccState
  | .accumulating start add =>
      if 4000 ≤ start then .done (resultString (start + add))
      else .accumulating (start + add) add
  | .done r => .done r

/-- The sequence of `start` values passed through the recursion: each
recursive call (line 21) replaces `start` with `start + add`. -/
def startSeq (start add : Int) : Nat → Int
  | 0 => start
  | n + 1 => startSeq start add n + add

end Accumulator

namespace Accumulator

theorem addNum_terminal {start : Int} (add : Int) (h : 4000 ≤ start)
    (fuel : Nat) : addNum fuel start add = some (resultString (start + add)) := by
  cases fuel <;> simp [addNum, h]

theorem addNum_step {start : Int} (add : Int) (h : start < 4000)
    (fuel : Nat) : addNum (fuel + 1) start add = addNum fuel (start + add) add := by
  simp [addNum, not_le.mpr h]

theorem addNum_zero_lt {start : Int} (add : Int) (h : start < 4000) :
    addNum 0 start add = none := by
  simp [addNum, not_le.mpr h]

/-- If the recursion first meets the threshold after exactly `k` steps, then
with at least `k` fuel it returns the threshold-meeting value plus one extra
increment. -/
theorem addNum_eq_of_firstHit :
    ∀ (k : Nat) (start add : Int), 4000 ≤ start + (k : Int) * add →
    (∀ j : Nat, j < k → start + (j : Int) * add < 4000) →
    ∀ fuel : Nat, k ≤ fuel →
    addNum fuel start add = some (resultString (start + (k : Int) * add + add)) := by
  intro k
  induction k with
  | zero =>
    intro start add hk _ fuel _
    simp only [Nat.cast_zero, zero_mul, add_zero] at hk ⊢
    exact addNum_terminal add hk fuel
  | succ k ih =>
    intro start add hk hmin fuel hfuel
    have hstart : start < 4000 := by
      have := hmin 0 (Nat.succ_pos k)
      simpa using this
    obtain ⟨f, rfl⟩ : ∃ f, fuel = f + 1 :=
      ⟨fuel - 1, by omega⟩
    rw [addNum_step add hstart f]
    have hk' : 4000 ≤ (start + add) + (k : Int) * add := by
      push_cast at hk ⊢; linarith
    have hmin' : ∀ j : Nat, j < k → (start + add) + (j : Int) * add < 4000 := by
      intro j hj
      have := hmin (j + 1) (by omega)
      push_cast at this ⊢; linarith
    have := ih (start + add) add hk' hmin' f (by omega)
    rw [this]
    congr 2
    push_cast
    ring

/-- Any terminating run is explained by a first threshold hit: if `addNum`
returns a string, there is a step count `k ≤ fuel` such that all earlier
values are below the threshold, the `k`-th value meets it, and the result is
that value plus one extra increment. -/
theorem addNum_some_elim :
    ∀ (fuel : Nat) (start add : Int) (r : String),
    addNum fuel start add = some r →
    ∃ k : Nat, k ≤ fuel ∧ (∀ j : Nat, j < k → start + (j : Int) * add < 4000) ∧
      4000 ≤ start + (k : Int) * add ∧
      r = resultString (start + (k : Int) * add + add) := by
  intro fuel
  induction fuel with
  | zero =>
    intro start add r hr
    by_cases h : 4000 ≤ start
    · refine ⟨0, le_refl 0, by omega, by simpa using h, ?_⟩
      rw [addNum_terminal add h 0] at hr
      simp only [Option.some_inj] at hr
      simp [← hr]
    · rw [addNum_zero_lt add (not_le.mp h)] at hr
      exact absurd hr (by simp)
  | succ fuel ih =>
    intro start add r hr
    by_cases h : 4000 ≤ start
    · refine ⟨0, Nat.zero_le _, by omega, by simpa using h, ?_⟩
      rw [addNum_terminal add h (fuel + 1)] at hr
      simp only [Option.some_inj] at hr
      simp [← hr]
    · have hstart : start < 4000 := not_le.mp h
      rw [addNum_step add hstart fuel] at hr
      obtain ⟨k, hkf, hmin, hk, hres⟩ := ih (start + add) add r hr
      refine ⟨k + 1, by omega, ?_, ?_, ?_⟩
      · intro j hj
        match j with
        | 0 => simpa using hstart
        | j + 1 =>
          have := hmin j (by omega)
          push_cast at this ⊢; linarith
      · push_cast at hk ⊢; linarith
      · rw [hres]; congr 2; push_cast; ring

/-- Fuel monotonicity: a successful run stays successful with more fuel. -/
theorem addNum_mono {fuel fuel' : Nat} {start add : Int} {r : String}
    (h : addNum fuel start add = some r) (hle : fuel ≤ fuel') :
    addNum fuel' start add = some r := by
  obtain ⟨k, hkf, hmin, hk, rfl⟩ := addNum_some_elim fuel start add r h
  exact addNum_eq_of_firstHit k start add hk hmin fuel' (le_trans hkf hle)

/-- For a positive increment there is a first step count at which the
sequence `start, start+add, start+2*add, …` reaches the threshold. -/
theorem exists_firstHit (start add : Int) (ha : 0 < add) :
    ∃ k : Nat, 4000 ≤ start + (k : Int) * add ∧
      ∀ j : Nat, j < k → start + (j : Int) * add < 4000 := by
  have hex : ∃ n : Nat, 4000 ≤ start + (n : Int) * add := by
    refine ⟨(4000 - start).toNat, ?_⟩
    have h1 : (4000 - start : Int) ≤ ((4000 - start).toNat : Int) :=
      Int.self_le_toNat _
    have h2 : ((4000 - start).toNat : Int) * 1 ≤ ((4000 - start).toNat : Int) * add := by
      apply mul_le_mul_of_nonneg_left _ (by positivity)
      omega
    linarith
  classical
  refine ⟨Nat.find hex, Nat.find_spec hex, ?_⟩
  intro j hj
  have := Nat.find_min hex hj
  omega

end Accumulator

namespace Accumulator

/-- C1: for `start < 4000` and `add > 0`, `add_num(start, add)` terminates
(for every sufficient fuel bound) and returns `"The sum is {T + add}"`,
where `T = start + k*add` is the first value of the sequence that is
`≥ 4000`. -/
theorem claim_C1 (start add : Int) (_hs : start < 4000) (ha : 0 < add) :
    ∃ k : Nat, 4000 ≤ start + (k : Int) * add ∧
      (∀ j : Nat, j < k → start + (j : Int) * add < 4000) ∧
      ∀ fuel : Nat, k ≤ fuel →
        addNum fuel start add = some (resultString (start + (k : Int) * add + add)) := by
  obtain ⟨k, hk, hmin⟩ := exists_firstHit start add ha
  exact ⟨k, hk, hmin, fun fuel hf => addNum_eq_of_firstHit k start add hk hmin fuel hf⟩

/-- Witness for C1 at `start = 3999`, `add = 1`. -/
theorem claim_C1_witness :
    (3999 : Int) < 4000 ∧ (0 : Int) < 1 ∧
    ∃ k : Nat, 4000 ≤ 3999 + (k : Int) * 1 ∧
      (∀ j : Nat, j < k → 3999 + (j : Int) * 1 < 4000) ∧
      ∀ fuel : Nat, k ≤ fuel →
        addNum fuel 3999 1 = some (resultString (3999 + (k : Int) * 1 + 1)) :=
  ⟨by norm_num, by norm_num, claim_C1 3999 1 (by norm_num) (by norm_num)⟩

/-- C2: for `start ≥ 4000` and any `add`, `add_num` returns
`"The sum is {start + add}"` immediately — even with zero fuel, i.e. with no
recursive step — and at every fuel bound. -/
theorem claim_C2 (start add : Int) (h : 4000 ≤ start) :
    addNum 0 start add = some (resultString (start + add)) ∧
    ∀ fuel : Nat, addNum fuel start add = some (resultString (start + add)) :=
  ⟨addNum_terminal add h 0, fun fuel => addNum_terminal add h fuel⟩

/-- Witness for C2 at `start = 4000`, `add = 5`. -/
theorem claim_C2_witness :
    (4000 : Int) ≤ 4000 ∧
    (addNum 0 4000 5 = some (resultString (4000 + 5)) ∧
      ∀ fuel : Nat, addNum fuel 4000 5 = some (resultString (4000 + 5))) :=
  ⟨by norm_num, claim_C2 4000 5 (by norm_num)⟩

/-- C4: for `start < 4000` and `add ≤ 0` the computation never terminates —
the fuel-indexed embedding returns `none` for every fuel bound. -/
theorem claim_C4 (start add : Int) (hs : start < 4000) (ha : add ≤ 0) :
    ∀ fuel : Nat, addNum fuel start add = none := by
  intro fuel
  induction fuel generalizing start with
  | zero => exact addNum_zero_lt add hs
  | succ fuel ih =>
    rw [addNum_step add hs fuel]
    exact ih (start + add) (by omega)

/-- Witness for C4 at `start = 10`, `add = 0`, fuel `5`. -/
theorem claim_C4_witness :
    (10 : Int) < 4000 ∧ (0 : Int) ≤ 0 ∧ addNum 5 10 0 = none :=
  ⟨by norm_num, le_refl 0, claim_C4 10 0 (by norm_num) (le_refl 0) 5⟩

/-- C7: `add_num(5000, -3)` takes the terminal branch with no recursion
(zero fuel) and returns `"The sum is 4997"`, despite the negative
increment. -/
theorem claim_C7 :
    addNum 0 5000 (-3) = some "The sum is 4997" := by
  decide

/-- C8: determinism — any two terminating runs of `add_num` on the same
arguments (at any two fuel bounds) return the same string. -/
theorem claim_C8 (start add : Int) (f1 f2 : Nat) (r1 r2 : String)
    (h1 : addNum f1 start add = some r1) (h2 : addNum f2 start add = some r2) :
    r1 = r2 := by
  rcases le_total f1 f2 with h | h
  · have := addNum_mono h1 h
    rw [this] at h2
    exact Option.some_inj.mp h2
  · have := addNum_mono h2 h
    rw [this] at h1
    exact (Option.some_inj.mp h1).symm

/-- Witness for C8 at `start = 4000`, `add = 1`, fuels `0` and `3`. -/
theorem claim_C8_witness :
    addNum 0 4000 1 = some "The sum is 4001" ∧
    addNum 3 4000 1 = some "The sum is 4001" ∧
    "The sum is 4001" = "The sum is 4001" :=
  ⟨by decide, by decide,
    claim_C8 4000 1 0 3 "The sum is 4001" "The sum is 4001" (by decide) (by decide)⟩

/-- C3 fails as stated: at `start = 4000`, `add = 5` the computation
terminates, the smallest value of the form `start + k*add` that is `≥ 4000`
is `4000`, yet the code returns `"The sum is 4005"`, not
`"The sum is 4000"`. -/
theorem claim_C3_counterexample :
    specLeastTotal 4000 5 4000 ∧
    addNum 0 4000 5 = some (resultString 4005) ∧
    resultString 4005 ≠ resultString 4000 := by
  refine ⟨⟨⟨0, by norm_num⟩, by norm_num, ?_⟩, by decide, by decide⟩
  rintro T' ⟨k, rfl⟩ h4
  exact h4

/-- C3 amended: whenever the computation terminates, the returned string is
`"The sum is {T + add}"` — the first threshold-meeting value `T` of the
sequence plus one extra increment, not `T` itself. -/
theorem claim_C3_amended (fuel : Nat) (start add : Int) (r : String)
    (h : addNum fuel start add = some r) :
    ∃ k : Nat, (∀ j : Nat, j < k → start + (j : Int) * add < 4000) ∧
      4000 ≤ start + (k : Int) * add ∧
      r = resultString (start + (k : Int) * add + add) := by
  obtain ⟨k, _, hmin, hk, hres⟩ := addNum_some_elim fuel start add r h
  exact ⟨k, hmin, hk, hres⟩

/-- Witness for the amended C3 at `fuel = 1`, `start = 3999`, `add = 1`. -/
theorem claim_C3_witness :
    addNum 1 3999 1 = some (resultString 4001) ∧
    ∃ k : Nat, (∀ j : Nat, j < k → 3999 + (j : Int) * 1 < 4000) ∧
      4000 ≤ 3999 + (k : Int) * 1 ∧
      resultString 4001 = resultString (3999 + (k : Int) * 1 + 1) :=
  ⟨by decide, claim_C3_amended 1 3999 1 (resultString 4001) (by decide)⟩

theorem addNum_eq_addNumIter :
    ∀ (fuel : Nat) (start add : Int), addNum fuel start add = addNumIter fuel start add := by
  intro fuel
  induction fuel with
  | zero =>
    intro start add
    by_cases h : 4000 ≤ start <;> simp [addNum, addNumIter, loopTotal, h]
  | succ fuel ih =>
    intro start add
    by_cases h : 4000 ≤ start
    · simp [addNum, addNumIter, loopTotal, h]
    · rw [addNum_step add (not_le.mp h) fuel, ih (start + add) add]
      simp [addNumIter, loopTotal, h]

/-- C5: for a positive increment, the recursive `add_num` and the spec's
iterative reformulation agree at every fuel bound, and both terminate on the
same string. -/
theorem claim_C5 (start add : Int) (ha : 0 < add) :
    (∀ fuel : Nat, addNum fuel start add = addNumIter fuel start add) ∧
    ∃ fuel : Nat, ∃ r : String,
      addNum fuel start add = some r ∧ addNumIter fuel start add = some r := by
  refine ⟨fun fuel => addNum_eq_addNumIter fuel start add, ?_⟩
  obtain ⟨k, hk, hmin⟩ := exists_firstHit start add ha
  have hrun := addNum_eq_of_firstHit k start add hk hmin k (le_refl k)
  refine ⟨k, resultString (start + (k : Int) * add + add), hrun, ?_⟩
  rw [← addNum_eq_addNumIter]
  exact hrun

/-- Witness for C5 at `start = 2`, `add = 1`. -/
theorem claim_C5_witness :
    (0 : Int) < 1 ∧
    ((∀ fuel : Nat, addNum fuel 2 1 = addNumIter fuel 2 1) ∧
      ∃ fuel : Nat, ∃ r : String,
        addNum fuel 2 1 = some r ∧ addNumIter fuel 2 1 = some r) :=
  ⟨by norm_num, claim_C5 2 1 (by norm_num)⟩

/-- C6: the script's single top-level invocation `add_num(2, 1)` returns
the string `"The sum is 4001"` (for every fuel bound covering its 3998
recursive calls). -/
theorem claim_C6 (fuel : Nat) (hf : 3998 ≤ fuel) :
    mainInvocation fuel = some "The sum is 4001" := by
  have hk : (4000 : Int) ≤ 2 + ((3998 : Nat) : Int) * 1 := by push_cast
  have hmin : ∀ j : Nat, j < 3998 → (2 : Int) + (j : Int) * 1 < 4000 := by
    intro j hj
    have : (j : Int) < 3998 := by exact_mod_cast hj
    linarith
  have hrun := addNum_eq_of_firstHit 3998 2 1 hk hmin fuel hf
  have e : (2 : Int) + ((3998 : Nat) : Int) * 1 + 1 = 4001 := by push_cast
  rw [mainInvocation, hrun, e]
  decide

/-- Witness for C6 at fuel `3998`. -/
theorem claim_C6_witness :
    3998 ≤ 3998 ∧ mainInvocation 3998 = some "The sum is 4001" :=
  ⟨le_refl 3998, claim_C6 3998 (le_refl 3998)⟩

/-- C9: with a positive increment, each non-terminal transition of the
state machine replaces `start` by `start + add`, so the RunningTotal
strictly increases: the sequence of `start` values is strictly monotone. -/
theorem claim_C9 (start add : Int) (ha : 0 < add) (hs : start < 4000) :
    stepState (AccState.accumulating start add) = AccState.accumulating (start + add) add ∧
    start < start + add ∧ StrictMono (startSeq start add) := by
  refine ⟨?_, by linarith, ?_⟩
  · simp [stepState, not_le.mpr hs]
  · apply strictMono_nat_of_lt_succ
    intro n
    show startSeq start add n < startSeq start add n + add
    linarith

/-- Witness for C9 at `start = 2`, `add = 1`. -/
theorem claim_C9_witness :
    (0 : Int) < 1 ∧ (2 : Int) < 4000 ∧
    (stepState (AccState.accumulating 2 1) = AccState.accumulating (2 + 1) 1 ∧
      (2 : Int) < 2 + 1 ∧ StrictMono (startSeq 2 1)) :=
  ⟨by norm_num, by norm_num, claim_C9 2 1 (by norm_num) (by norm_num)⟩

/-- C10: below the threshold, with a positive increment, the result depends
only on the start value's residue class modulo the increment: congruent
start values terminate on the same string. -/
theorem claim_C10 (add s1 s2 : Int) (ha : 0 < add) (h1 : s1 < 4000) (h2 : s2 < 4000)
    (hmod : s1 % add = s2 % add) :
    ∃ r : String, (∃ f : Nat, addNum f s1 add = some r) ∧
      ∃ f : Nat, addNum f s2 add = some r := by
  obtain ⟨k1, hk1, hmin1⟩ := exists_firstHit s1 add ha
  obtain ⟨k2, hk2, hmin2⟩ := exists_firstHit s2 add ha
  obtain ⟨m1, rfl⟩ : ∃ m, k1 = m + 1 := by
    refine ⟨k1 - 1, ?_⟩
    rcases Nat.eq_zero_or_pos k1 with h | h
    · exfalso; subst h; simp at hk1; linarith
    · omega
  obtain ⟨m2, rfl⟩ : ∃ m, k2 = m + 1 := by
    refine ⟨k2 - 1, ?_⟩
    rcases Nat.eq_zero_or_pos k2 with h | h
    · exfalso; subst h; simp at hk2; linarith
    · omega
  have hub1 : s1 + ((m1 + 1 : Nat) : Int) * add < 4000 + add := by
    have := hmin1 m1 (by omega)
    push_cast at this ⊢
    linarith
  have hub2 : s2 + ((m2 + 1 : Nat) : Int) * add < 4000 + add := by
    have := hmin2 m2 (by omega)
    push_cast at this ⊢
    linarith
  have hm : Int.ModEq add s1 s2 := hmod
  have hdvd : add ∣ (s1 + ((m1 + 1 : Nat) : Int) * add) - (s2 + ((m2 + 1 : Nat) : Int) * add) := by
    obtain ⟨c, hc⟩ := Int.ModEq.dvd hm
    refine ⟨-c + ((m1 + 1 : Nat) : Int) - ((m2 + 1 : Nat) : Int), ?_⟩
    push_cast at hc ⊢
    linear_combination -hc
  have heq : s1 + ((m1 + 1 : Nat) : Int) * add = s2 + ((m2 + 1 : Nat) : Int) * add := by
    have habs : |(s1 + ((m1 + 1 : Nat) : Int) * add) - (s2 + ((m2 + 1 : Nat) : Int) * add)| < add :=
      abs_lt.mpr ⟨by linarith, by linarith⟩
    have := Int.eq_zero_of_abs_lt_dvd hdvd habs
    linarith
  refine ⟨resultString (s1 + ((m1 + 1 : Nat) : Int) * add + add), ⟨m1 + 1, ?_⟩, ⟨m2 + 1, ?_⟩⟩
  · exact addNum_eq_of_firstHit (m1 + 1) s1 add hk1 hmin1 (m1 + 1) (le_refl _)
  · rw [heq]
    exact addNum_eq_of_firstHit (m2 + 1) s2 add hk2 hmin2 (m2 + 1) (le_refl _)

/-- Witness for C10 at `s1 = 3998`, `s2 = 3993`, `add = 5` (both congruent
to 3 mod 5). -/
theorem claim_C10_witness :
    (0 : Int) < 5 ∧ (3998 : Int) < 4000 ∧ (3993 : Int) < 4000 ∧
    (3998 : Int) % 5 = (3993 : Int) % 5 ∧
    ∃ r : String, (∃ f : Nat, addNum f 3998 5 = some r) ∧
      ∃ f : Nat, addNum f 3993 5 = some r :=
  ⟨by norm_num, by norm_num, by norm_num, by decide,
    claim_C10 5 3998 3993 (by norm_num) (by norm_num) (by norm_num) (by decide)⟩

end Accumulator
